import Mathlib

/-!
Shallow embedding of the replicated in-memory cache (`main.go`) of the
GoLang_ChacheMemory repository.

The mutable state is a `sync.Map` from string keys to string values; it is
embedded as an association list with at most one entry per key (the invariant
`syncMapWF`, which every reachable `sync.Map` state satisfies).  The engine
operations (`Cache.Add`, `Cache.Get`, `Cache.Delete`) are embedded as pure
functions returning the new cache state together with an event trace (the
sequence of store/broadcast statements the Go body executes, in order) and the
list of outbound HTTP delivery requests the replicator spawns (one goroutine
per peer in the source; here one `DeliveryRequest` per peer).
-/

/-- Association-list model of the `sync.Map` field `Cache.data`. -/
abbrev Store := List (String × String)

/-- `sync.Map.Store key value` (main.go line 25): insert-or-overwrite the
binding for `key`. -/
def syncMapStore : Store → String → String → Store
  | [], key, value => [(key, value)]
  | e :: rest, key, value =>
    if e.1 == key then (key, value) :: rest
    else e :: syncMapStore rest key value

/-- `sync.Map.Load key` (main.go line 31): the value bound to `key`, if any. -/
def syncMapLoad (m : Store) (key : String) : Option String :=
  match m.find? (fun e => e.1 == key) with
  | none => none
  | some e => some e.2

/-- `sync.Map.Delete key` (main.go line 43): drop the binding for `key`
(a no-op when absent). -/
def syncMapDelete (m : Store) (key : String) : Store :=
  m.filter (fun e => e.1 != key)

/-- A `sync.Map` never holds two bindings for one key; this is the invariant
every reachable `Store` state satisfies in the association-list model. -/
def syncMapWF (m : Store) : Prop := (m.map Prod.fst).Nodup

instance (m : Store) : Decidable (syncMapWF m) := by
  unfold syncMapWF; infer_instance

/-- Number of entries of the store whose key is `key`. -/
def countKey (m : Store) (key : String) : Nat :=
  (m.filter (fun e => e.1 == key)).length

/-- The cache node: the `sync.Map` plus the static peer list
(main.go lines 14-18; the mutex serializes Add/Delete and carries no data). -/
structure Cache where
  data : Store
  peers : List String
deriving DecidableEq, Repr

/-- A mutation event to be replicated (spec §3). -/
inductive MutationEvent where
  | upsert (key value : String) : MutationEvent
  | delete (key : String) : MutationEvent
deriving DecidableEq, Repr

/-- One statement of an engine operation's body, in execution order. -/
inductive EngineEvent where
  | storeWrite (key value : String) : EngineEvent
  | storeRemove (key : String) : EngineEvent
  | broadcastTrigger (event : MutationEvent) : EngineEvent
deriving DecidableEq, Repr

/-- An outbound HTTP request issued by one replication goroutine. -/
structure DeliveryRequest where
  method : String
  url : String
  contentType : Option String
  body : Option String
deriving DecidableEq, Repr

/-- The body `replicateData` posts for an upsert: `key+"="+value`
(main.go line 51). -/
def replicateBody (key value : String) : String := key ++ "=" ++ value

/-- `Cache.replicateData` (main.go lines 48-59): for every configured peer,
spawn a goroutine that POSTs `key+"="+value` with content type
`application/json` to `peer+"/replicate"`.  The `server` argument is unused by
the source body. -/
def replicateData (peers : List String) (server key value : String) :
    List DeliveryRequest :=
  peers.map fun peer =>
    { method := "POST"
      url := peer ++ "/replicate"
      contentType := some "application/json"
      body := some (replicateBody key value) }

/-- The URL path `replicateDelete` targets: `"/replicate/"+key`
(main.go line 65). -/
def deleteReplicationPath (key : String) : String := "/replicate/" ++ key

/-- `Cache.replicateDelete` (main.go lines 62-78): for every configured peer,
spawn a goroutine that sends `DELETE peer+"/replicate/"+key` with no body.
The `server` argument is unused by the source body. -/
def replicateDelete (peers : List String) (server key : String) :
    List DeliveryRequest :=
  peers.map fun peer =>
    { method := "DELETE"
      url := peer ++ deleteReplicationPath key
      contentType := none
      body := none }

/-- Result of one engine mutation: the new cache state, the trace of the
body's statements in order, and the outbound replication requests spawned. -/
structure OpResult where
  cache : Cache
  trace : List EngineEvent
  requests : List DeliveryRequest
deriving DecidableEq, Repr

/-- `Cache.Add` (main.go lines 21-27): under the mutex, store the pair in the
`sync.Map` (line 25), then call `replicateData` (line 26). -/
def Cache.Add (c : Cache) (server key value : String) : OpResult :=
  { cache := { c with data := syncMapStore c.data key value }
    trace := [EngineEvent.storeWrite key value,
              EngineEvent.broadcastTrigger (MutationEvent.upsert key value)]
    requests := replicateData c.peers server key value }

/-- Result of `Cache.Get`: the cache afterwards and the requests issued are
recorded to state that the body neither mutates the store nor replicates. -/
structure GetResult where
  cache : Cache
  requests : List DeliveryRequest
  value : String
  found : Bool
deriving DecidableEq, Repr

/-- `Cache.Get` (main.go lines 30-36): `Load` the key; on a miss return
`("", false)`, otherwise `(value, true)`.  No statement of the body mutates
`c.data` or issues a network call.  The `server` argument is unused. -/
def Cache.Get (c : Cache) (server key : String) : GetResult :=
  match syncMapLoad c.data key with
  | none => { cache := c, requests := [], value := "", found := false }
  | some val => { cache := c, requests := [], value := val, found := true }

/-- `Cache.Delete` (main.go lines 39-45): under the mutex, delete the key from
the `sync.Map` (line 43), then call `replicateDelete` (line 44). -/
def Cache.Delete (c : Cache) (server key : String) : OpResult :=
  { cache := { c with data := syncMapDelete c.data key }
    trace := [EngineEvent.storeRemove key,
              EngineEvent.broadcastTrigger (MutationEvent.delete key)]
    requests := replicateDelete c.peers server key }

/-- `Cache.getDataFromCache` (main.go lines 81-89): format all entries as
`key=value` lines. -/
def Cache.getDataFromCache (c : Cache) (server : String) : String :=
  c.data.foldl (fun acc e => acc ++ e.1 ++ "=" ++ e.2 ++ "\n") ""

/-- The cache `main` constructs (main.go lines 92-94). -/
def mainCache : Cache :=
  { data := [], peers := ["http://localhost:8081", "http://localhost:8082"] }

/-! ### The `/replicate` handler and its JSON body decoding

The handler (main.go lines 138-149) decodes the request body into a Go
`map[string]string` with `encoding/json` and, on success, feeds every decoded
pair back through `Cache.Add`.  The decoder below embeds the subset of
`encoding/json` semantics exercised here: the body must be a single JSON
object whose values are JSON strings (or the literal `null`, which decodes
into a nil map without error); anything else is a decode error. -/

/-- JSON whitespace. -/
def isJsonWs (c : Char) : Bool := c == ' ' || c == '\t' || c == '\n' || c == '\r'

/-- Skip leading JSON whitespace. -/
def skipWs : List Char → List Char
  | [] => []
  | c :: rest => if isJsonWs c then skipWs rest else c :: rest

/-- Value of a hexadecimal digit, for `\uXXXX` escapes. -/
def hexVal (c : Char) : Option Nat :=
  if '0' ≤ c ∧ c ≤ '9' then some (c.toNat - '0'.toNat)
  else if 'a' ≤ c ∧ c ≤ 'f' then some (c.toNat - 'a'.toNat + 10)
  else if 'A' ≤ c ∧ c ≤ 'F' then some (c.toNat - 'A'.toNat + 10)
  else none

/-- Parse the remainder of a JSON string literal (the opening quote already
consumed), returning the decoded string and the unconsumed input. -/
def parseJsonStringBody : List Char → Option (String × List Char)
  | [] => none
  | '"' :: rest => some ("", rest)
  | '\\' :: e :: rest =>
    match e with
    | '"' => (parseJsonStringBody rest).map fun r => (String.singleton '"' ++ r.1, r.2)
    | '\\' => (parseJsonStringBody rest).map fun r => (String.singleton '\\' ++ r.1, r.2)
    | '/' => (parseJsonStringBody rest).map fun r => (String.singleton '/' ++ r.1, r.2)
    | 'b' => (parseJsonStringBody rest).map fun r => (String.singleton '\x08' ++ r.1, r.2)
    | 'f' => (parseJsonStringBody rest).map fun r => (String.singleton '\x0c' ++ r.1, r.2)
    | 'n' => (parseJsonStringBody rest).map fun r => (String.singleton '\n' ++ r.1, r.2)
    | 'r' => (parseJsonStringBody rest).map fun r => (String.singleton '\r' ++ r.1, r.2)
    | 't' => (parseJsonStringBody rest).map fun r => (String.singleton '\t' ++ r.1, r.2)
    | 'u' =>
      match rest with
      | h1 :: h2 :: h3 :: h4 :: rest' =>
        match hexVal h1, hexVal h2, hexVal h3, hexVal h4 with
        | some a, some b, some c, some d =>
          (parseJsonStringBody rest').map fun r =>
            (String.singleton (Char.ofNat (((a * 16 + b) * 16 + c) * 16 + d)) ++ r.1, r.2)
        | _, _, _, _ => none
      | _ => none
    | _ => none
  | c :: rest => (parseJsonStringBody rest).map fun r => (String.singleton c ++ r.1, r.2)

/-- Parse the members of a JSON object (after the opening brace, first member
not yet consumed).  Every value must itself be a JSON string, as
`encoding/json` requires when the target type is `map[string]string`.  The
fuel argument bounds recursion depth; the callers pass the input length, which
one member always exceeds. -/
def parseMembers : Nat → List Char → Option (List (String × String) × List Char)
  | 0, _ => none
  | Nat.succ fuel, input =>
    match input with
    | '"' :: r0 =>
      match parseJsonStringBody r0 with
      | none => none
      | some (key, r1) =>
        match skipWs r1 with
        | ':' :: r2 =>
          match skipWs r2 with
          | '"' :: r3 =>
            match parseJsonStringBody r3 with
            | none => none
            | some (value, r4) =>
              match skipWs r4 with
              | ',' :: r5 =>
                match parseMembers fuel (skipWs r5) with
                | none => none
                | some (pairs, r6) => some ((key, value) :: pairs, r6)
              | '}' :: r5 => some ([(key, value)], r5)
              | _ => none
          | _ => none
        | _ => none
    | _ => none

/-- `json.NewDecoder(r.Body).Decode(&data)` for `data : map[string]string`
(main.go line 140): decode one JSON value from the body; it must be an object
of string values (or `null`); trailing bytes after the value are ignored by
`Decoder.Decode`. -/
def decodeStringMap (body : String) : Option (List (String × String)) :=
  match skipWs body.toList with
  | 'n' :: 'u' :: 'l' :: 'l' :: _ => some []
  | '{' :: rest =>
    match skipWs rest with
    | '}' :: _ => some []
    | rest' =>
      match parseMembers (rest'.length + 1) rest' with
      | none => none
      | some (pairs, _) => some pairs
  | _ => none

/-- Result of one `/replicate` handler invocation: the cache afterwards, the
outbound requests its `Cache.Add` calls spawned, and the HTTP status. -/
structure HandlerResult where
  cache : Cache
  requests : List DeliveryRequest
  status : Nat
deriving DecidableEq, Repr

/-- The `/replicate` handler (main.go lines 138-149): decode the body as a
JSON object of key-value pairs; on failure answer 400; on success call
`cache.Add(r.Host, key, value)` for every decoded pair and answer 200. -/
def replicateHandler (c : Cache) (host : String) (body : String) : HandlerResult :=
  match decodeStringMap body with
  | none => { cache := c, requests := [], status := 400 }
  | some pairs =>
    let r := pairs.foldl
      (fun (acc : Cache × List DeliveryRequest) kv =>
        let res := acc.1.Add host kv.1 kv.2
        (res.cache, acc.2 ++ res.requests))
      (c, ([] : List DeliveryRequest))
    { cache := r.1, requests := r.2, status := 200 }

/-! ### The `/updates` feed producer

The `/updates` handler (main.go lines 158-188) creates an unbuffered channel
and spawns a goroutine that loops forever: take a snapshot with
`getDataFromCache`, send it on the channel, sleep one second, repeat.  The
goroutine's loop body contains no `return` or `break` and never inspects
`r.Context()`.  Once the subscriber's context is canceled the consumer loop
returns, after which the channel has no receiver and the producer's send
blocks forever.  `producerStepAfterCancel` is the producer's transition
function in that post-cancellation regime. -/

/-- Control point of the frame-producing goroutine of one `/updates`
subscriber.  `exited` would be reached by a `return` or `break` statement;
the loop body (main.go lines 168-175) contains none. -/
inductive ProducerPhase where
  | takeSnapshot : ProducerPhase
  | sendFrame (frame : String) : ProducerPhase
  | sleeping : ProducerPhase
  | exited : ProducerPhase
deriving DecidableEq, Repr

/-- One step of the producer goroutine after the subscriber's context is
canceled: the snapshot statement produces a frame; the unbuffered channel
send blocks forever since the consumer loop has returned; the sleep ends and
the loop repeats.  No transition reaches `exited`: the loop has no exit path
and no context check. -/
def producerStepAfterCancel (c : Cache) (host : String) :
    ProducerPhase → ProducerPhase
  | ProducerPhase.takeSnapshot => ProducerPhase.sendFrame (c.getDataFromCache host)
  | ProducerPhase.sendFrame f => ProducerPhase.sendFrame f
  | ProducerPhase.sleeping => ProducerPhase.takeSnapshot
  | ProducerPhase.exited => ProducerPhase.exited

/-! ### The HTTP mux -/

/-- The exact patterns `main` registers with `http.HandleFunc`
(main.go lines 97, 110, 126, 138, 152, 158). -/
def registeredPaths : List String :=
  ["/add", "/get", "/delete", "/replicate", "/getCacheContent", "/updates"]

/-- Dispatch of Go's `http.ServeMux` restricted to the registered patterns:
none ends in a slash, so each matches only the exact path. -/
def muxLookup (path : String) : Option String :=
  registeredPaths.find? (fun p => p == path)

/-! ### Delivery outcomes

Each replication goroutine performs its own HTTP call; whether it succeeds
depends only on the reachability of the URL it targets (main.go lines 50-57:
`err` of `http.Post` is examined per goroutine and only logged).  `reach`
abstracts the network: it tells, per URL, whether the request succeeds. -/

/-- One replication goroutine's attempt and its outcome. -/
structure DeliveryAttempt where
  request : DeliveryRequest
  ok : Bool
deriving DecidableEq, Repr

/-- Outcome of all spawned replication goroutines under network `reach`:
each attempt's outcome is the reachability of its own target URL. -/
def attemptDeliveries (reach : String → Bool) (reqs : List DeliveryRequest) :
    List DeliveryAttempt :=
  reqs.map fun r => { request := r, ok := reach r.url }

/-! ### Store lemmas -/

/-- Loading a key right after storing it yields the stored value. -/
theorem syncMapLoad_syncMapStore (m : Store) (key value : String) :
    syncMapLoad (syncMapStore m key value) key = some value := by
  induction m with
  | nil => simp [syncMapStore, syncMapLoad, List.find?]
  | cons e rest ih =>
    cases h : e.1 == key with
    | true => simp [syncMapStore, h, syncMapLoad, List.find?]
    | false =>
      simp only [syncMapStore, h, Bool.false_eq_true, if_false]
      simpa [syncMapLoad, List.find?, h] using ih

/-- A key of the store after an upsert is the upserted key or an old key. -/
theorem mem_keys_syncMapStore (m : Store) (key value x : String)
    (hx : x ∈ (syncMapStore m key value).map Prod.fst) :
    x = key ∨ x ∈ m.map Prod.fst := by
  induction m with
  | nil => simpa [syncMapStore] using hx
  | cons e rest ih =>
    cases h : e.1 == key with
    | true =>
      simp only [syncMapStore, h, if_true] at hx
      simp only [List.map_cons, List.mem_cons] at hx ⊢
      tauto
    | false =>
      simp only [syncMapStore, h, Bool.false_eq_true, if_false] at hx
      simp only [List.map_cons, List.mem_cons] at hx ⊢
      rcases hx with hx | hx
      · tauto
      · rcases ih hx with h1 | h1 <;> tauto

/-- An upsert keeps the store well-formed (at most one entry per key). -/
theorem syncMapWF_syncMapStore (m : Store) (key value : String)
    (h : syncMapWF m) : syncMapWF (syncMapStore m key value) := by
  induction m with
  | nil => simp [syncMapStore, syncMapWF]
  | cons e rest ih =>
    rw [syncMapWF, List.map_cons, List.nodup_cons] at h
    cases heq : e.1 == key with
    | true =>
      have hk : e.1 = key := by simpa using heq
      simp only [syncMapStore, heq, if_true, syncMapWF, List.map_cons,
        List.nodup_cons]
      exact ⟨hk ▸ h.1, h.2⟩
    | false =>
      simp only [syncMapStore, heq, Bool.false_eq_true, if_false, syncMapWF,
        List.map_cons, List.nodup_cons]
      refine ⟨fun hmem => ?_, ih h.2⟩
      rcases mem_keys_syncMapStore rest key value e.1 hmem with h1 | h1
      · simp [h1] at heq
      · exact h.1 h1

/-- In a well-formed store, an upsert leaves exactly one entry for its key. -/
theorem countKey_syncMapStore (m : Store) (key value : String)
    (h : syncMapWF m) : countKey (syncMapStore m key value) key = 1 := by
  induction m with
  | nil => simp [syncMapStore, countKey]
  | cons e rest ih =>
    rw [syncMapWF, List.map_cons, List.nodup_cons] at h
    cases heq : e.1 == key with
    | true =>
      have hk : e.1 = key := by simpa using heq
      have hnil : rest.filter (fun e' => e'.1 == key) = [] := by
        rw [List.filter_eq_nil_iff]
        intro a ha hcon
        have ha1 : a.1 = key := by simpa using hcon
        have hmem : a.1 ∈ rest.map Prod.fst := List.mem_map_of_mem Prod.fst ha
        rw [ha1, ← hk] at hmem
        exact h.1 hmem
      simp [syncMapStore, heq, countKey, hnil]
    | false =>
      simp only [syncMapStore, heq, Bool.false_eq_true, if_false, countKey,
        List.filter_cons, heq]
      simpa [countKey] using ih h.2

/-- Removing a key twice is the same as removing it once. -/
theorem syncMapDelete_idem (m : Store) (key : String) :
    syncMapDelete (syncMapDelete m key) key = syncMapDelete m key := by
  simp [syncMapDelete, List.filter_filter]

/-- Removing an absent key leaves the store unchanged. -/
theorem syncMapDelete_absent (m : Store) (key : String)
    (h : syncMapLoad m key = none) : syncMapDelete m key = m := by
  unfold syncMapLoad at h
  cases hf : m.find? (fun e => e.1 == key) with
  | some e => rw [hf] at h; exact absurd h (by simp)
  | none =>
    have hall := List.find?_eq_none.mp hf
    rw [syncMapDelete, List.filter_eq_self]
    intro a ha
    have := hall a ha
    simpa [bne] using this

/-! ### Claim theorems -/

/-- C1.  The claim says a mutation arriving on the inbound `/replicate` path
updates the local store but never triggers a new Broadcast to the configured
peers.  The code violates it: the handler re-applies the mutation through
`Cache.Add`, which calls `replicateData` again.  Concretely, posting the
well-formed body containing the single pair k=v to a node configured with two
peers answers 200, stores the pair, and spawns a fresh broadcast of the same
mutation to both peers. -/
theorem inbound_replicate_triggers_rebroadcast :
    (replicateHandler mainCache "localhost:8081" "\x7b\"k\":\"v\"\x7d").status = 200 ∧
    syncMapLoad (replicateHandler mainCache "localhost:8081" "\x7b\"k\":\"v\"\x7d").cache.data "k"
      = some "v" ∧
    (replicateHandler mainCache "localhost:8081" "\x7b\"k\":\"v\"\x7d").requests
      = replicateData mainCache.peers "localhost:8081" "k" "v" ∧
    (replicateHandler mainCache "localhost:8081" "\x7b\"k\":\"v\"\x7d").requests.length = 2 := by
  refine ⟨rfl, by decide, by decide, by decide⟩

/-- C2.  The claim says the body `replicateData` posts to a peer's
`/replicate` endpoint is a well-formed JSON object that the handler decodes
successfully (200).  The code violates it: the body is the plain text
`key+"="+value` (content type notwithstanding), which the handler's JSON
decode rejects with 400, leaving the receiving cache unchanged. -/
theorem upsert_body_rejected_by_replicate_handler :
    replicateBody "k" "v" = "k=v" ∧
    (replicateData mainCache.peers "http://localhost:8080" "k" "v").map
        (fun r => r.body) = [some "k=v", some "k=v"] ∧
    (replicateData mainCache.peers "http://localhost:8080" "k" "v").map
        (fun r => r.contentType)
      = [some "application/json", some "application/json"] ∧
    decodeStringMap (replicateBody "k" "v") = none ∧
    (replicateHandler mainCache "localhost:8081" (replicateBody "k" "v")).status = 400 ∧
    (replicateHandler mainCache "localhost:8081" (replicateBody "k" "v")).cache = mainCache := by
  refine ⟨rfl, by decide, by decide, by decide, by decide, by decide⟩

/-- C3.  `Add` applies the mutation to the local store unconditionally and
spawns one delivery per configured peer; for every network behaviour `reach`,
the local `Get` of the written key returns the value with `found = true`
(independent of `reach`), and each delivery attempt's outcome is exactly the
reachability of its own peer's URL — no other peer's outcome enters it. -/
theorem add_local_write_and_isolated_deliveries :
    ∀ (c : Cache) (server key value : String) (reach : String → Bool),
      ((c.Add server key value).cache.Get server key).value = value ∧
      ((c.Add server key value).cache.Get server key).found = true ∧
      attemptDeliveries reach (c.Add server key value).requests
        = c.peers.map (fun peer =>
            { request :=
                { method := "POST"
                  url := peer ++ "/replicate"
                  contentType := some "application/json"
                  body := some (replicateBody key value) }
              ok := reach (peer ++ "/replicate") }) := by
  intro c server key value reach
  refine ⟨?_, ?_, ?_⟩
  · show ((Cache.Get ⟨syncMapStore c.data key value, c.peers⟩ server key)).value = value
    simp [Cache.Get, syncMapLoad_syncMapStore]
  · show ((Cache.Get ⟨syncMapStore c.data key value, c.peers⟩ server key)).found = true
    simp [Cache.Get, syncMapLoad_syncMapStore]
  · show attemptDeliveries reach (replicateData c.peers server key value) = _
    simp [attemptDeliveries, replicateData, List.map_map]

/-- C4.  `Add` executes exactly the two-step sequence: store write, then
broadcast trigger of `Upsert(key, value)`; and the resulting state and
requests are the store after the write and one upsert POST per peer.
`Delete` likewise removes from the store and then triggers
`Broadcast(Delete)`. -/
theorem add_delete_statement_sequence :
    ∀ (c : Cache) (server key value : String),
      (c.Add server key value).trace
        = [EngineEvent.storeWrite key value,
           EngineEvent.broadcastTrigger (MutationEvent.upsert key value)] ∧
      (c.Add server key value).cache.data = syncMapStore c.data key value ∧
      (c.Add server key value).requests = replicateData c.peers server key value ∧
      (c.Delete server key).trace
        = [EngineEvent.storeRemove key,
           EngineEvent.broadcastTrigger (MutationEvent.delete key)] ∧
      (c.Delete server key).cache.data = syncMapDelete c.data key ∧
      (c.Delete server key).requests = replicateDelete c.peers server key := by
  intro c server key value
  exact ⟨rfl, rfl, rfl, rfl, rfl, rfl⟩

/-- C5.  From any well-formed store state, `Add(k,v1)` then `Add(k,v2)` then
`Get(k)` returns `(v2, true)`, and after the two Adds the store holds exactly
one entry for k. -/
theorem overwrite_no_duplication :
    ∀ (c : Cache) (server key v1 v2 : String), syncMapWF c.data →
      (((c.Add server key v1).cache.Add server key v2).cache.Get server key).value = v2 ∧
      (((c.Add server key v1).cache.Add server key v2).cache.Get server key).found = true ∧
      countKey ((c.Add server key v1).cache.Add server key v2).cache.data key = 1 := by
  intro c server key v1 v2 h
  have hdata : ((c.Add server key v1).cache.Add server key v2).cache.data
      = syncMapStore (syncMapStore c.data key v1) key v2 := rfl
  refine ⟨?_, ?_, ?_⟩
  · show (Cache.Get ⟨syncMapStore (syncMapStore c.data key v1) key v2, c.peers⟩
        server key).value = v2
    simp [Cache.Get, syncMapLoad_syncMapStore]
  · show (Cache.Get ⟨syncMapStore (syncMapStore c.data key v1) key v2, c.peers⟩
        server key).found = true
    simp [Cache.Get, syncMapLoad_syncMapStore]
  · rw [hdata]
    exact countKey_syncMapStore _ _ _ (syncMapWF_syncMapStore _ _ _ h)

/-- C5 witness: the theorem applied to the cache `main` builds (empty,
well-formed store) with key "k" and values "a" then "b". -/
theorem overwrite_no_duplication_witness :
    (((mainCache.Add "s" "k" "a").cache.Add "s" "k" "b").cache.Get "s" "k").value = "b" ∧
    (((mainCache.Add "s" "k" "a").cache.Add "s" "k" "b").cache.Get "s" "k").found = true ∧
    countKey ((mainCache.Add "s" "k" "a").cache.Add "s" "k" "b").cache.data "k" = 1 :=
  overwrite_no_duplication mainCache "s" "k" "a" "b" (by decide)

/-- C6.  `Delete` always succeeds; deleting the same key twice produces the
identical operation result (state, trace and requests) as the first delete,
and deleting an absent key leaves the store unchanged. -/
theorem delete_idempotent_and_absent_noop :
    ∀ (c : Cache) (server key : String),
      (c.Delete server key).cache.Delete server key = c.Delete server key ∧
      (syncMapLoad c.data key = none → (c.Delete server key).cache.data = c.data) := by
  intro c server key
  constructor
  · simp [Cache.Delete, syncMapDelete_idem]
  · intro h
    show syncMapDelete c.data key = c.data
    exact syncMapDelete_absent c.data key h

/-- C6 witness: the theorem applied to the cache `main` builds, whose empty
store does not contain "k". -/
theorem delete_idempotent_and_absent_noop_witness :
    ((mainCache.Delete "s" "k").cache.Delete "s" "k" = mainCache.Delete "s" "k") ∧
    (mainCache.Delete "s" "k").cache.data = mainCache.data :=
  ⟨(delete_idempotent_and_absent_noop mainCache "s" "k").1,
   (delete_idempotent_and_absent_noop mainCache "s" "k").2 (by decide)⟩

/-- C7.  `Get` leaves the cache unchanged, issues no replication request, and
returns exactly the underlying store lookup: the bound value with
`found = true` when the key is present, `("", false)` when absent. -/
theorem get_is_pure_delegation :
    ∀ (c : Cache) (server key : String),
      (c.Get server key).cache = c ∧
      (c.Get server key).requests = [] ∧
      (c.Get server key).value = (syncMapLoad c.data key).getD "" ∧
      (c.Get server key).found = (syncMapLoad c.data key).isSome := by
  intro c server key
  cases h : syncMapLoad c.data key <;> simp [Cache.Get, h]

/-- C8.  The claim says every frame-producing task of a disconnected
`/updates` subscriber stops promptly.  The code violates it: the producer
goroutine's loop has no exit statement and no context check, so after the
subscriber's context is canceled it never reaches the exited state — for any
number of steps it keeps cycling (and ultimately blocks forever on the
receiver-less channel send), leaking the goroutine and channel. -/
theorem updates_producer_never_exits :
    ∀ (c : Cache) (host : String) (n : Nat),
      Nat.iterate (producerStepAfterCancel c host) n ProducerPhase.takeSnapshot
        ≠ ProducerPhase.exited := by
  intro c host n
  have step : ∀ p : ProducerPhase, p ≠ ProducerPhase.exited →
      producerStepAfterCancel c host p ≠ ProducerPhase.exited := by
    intro p hp
    cases p <;> simp_all [producerStepAfterCancel]
  have main : ∀ (k : Nat) (p : ProducerPhase), p ≠ ProducerPhase.exited →
      Nat.iterate (producerStepAfterCancel c host) k p ≠ ProducerPhase.exited := by
    intro k
    induction k with
    | zero => intro p hp; simpa using hp
    | succ k ih =>
      intro p hp
      rw [Function.iterate_succ_apply]
      exact ih _ (step p hp)
  exact main n ProducerPhase.takeSnapshot (by simp)

/-- C9.  The originating-server argument is dead data: for any two server
strings, `Add`, `Get` and `Delete` produce identical results (store state,
trace, and peer deliveries alike). -/
theorem server_argument_noninterference :
    ∀ (c : Cache) (s1 s2 key value : String),
      c.Add s1 key value = c.Add s2 key value ∧
      c.Get s1 key = c.Get s2 key ∧
      c.Delete s1 key = c.Delete s2 key := by
  intro c s1 s2 key value
  exact ⟨rfl, rfl, rfl⟩

/-- C10.  For every key, the path `"/replicate/"+key` that `replicateDelete`
targets differs from every pattern the server registers, so the mux resolves
it to no handler: a peer running this program never applies a replicated
delete. -/
theorem replicate_delete_path_unregistered :
    ∀ key : String,
      deleteReplicationPath key ∉ registeredPaths ∧
      muxLookup (deleteReplicationPath key) = none := by
  intro key
  have hmem : deleteReplicationPath key ∉ registeredPaths := by
    intro hm
    have hone : ∀ p ∈ registeredPaths, List.count '/' p.data = 1 := by decide
    have h1 : List.count '/' (deleteReplicationPath key).data = 1 :=
      hone _ hm
    have h3 : (deleteReplicationPath key).data = "/replicate/".data ++ key.data := rfl
    rw [h3, List.count_append] at h1
    have h2 : List.count '/' "/replicate/".data = 2 := by decide
    rw [h2] at h1
    omega
  refine ⟨hmem, ?_⟩
  rw [muxLookup, List.find?_eq_none]
  intro p hp hcon
  have : p = deleteReplicationPath key := by simpa using hcon
  exact hmem (this ▸ hp)
